import Mathlib

/-!
# Verification of the local file memory service

A shallow embedding of `custom_components/google_adk/local_memory_service.py`.

The service keeps an in-memory document (a nested string-keyed mapping) that
mirrors a persisted store, ingests conversation sessions, searches them by
keyword, and condenses history into summaries once a per-user turn threshold
is crossed.

Modelling conventions:
* Python `dict`s become insertion-ordered association lists
  (`List (String × _)`); `d[k] = v` keeps the position of an existing key and
  appends a new key at the end, exactly like a Python dict.
* Python `set`s of words become deduplicated lists; only membership and
  emptiness of these sets are ever observed by the code.
* The asynchronous store is modelled by a `saved` component of the state;
  `async_save` copies the live document into it.  A failing `async_save` (the
  exception is caught inside the summarizer) leaves `saved` unchanged.
* The summarization client call `generate_content` is modelled by its result:
  `some text` for a successful response, `none` for a raised error.
* `datetime.fromtimestamp(t).isoformat()` is abstracted to a string rendering
  of the numeric timestamp; no claim depends on the concrete ISO format.
* Events whose `content.parts` hold `Part` objects are modelled with
  `content = none` standing for a missing content and `parts = []` covering
  both an absent and an empty parts list (Python treats both as falsy).
-/

namespace GoogleAdk

/-- A part of an incoming event's content: `Part(text=...)`, text optional. -/
structure EvtPart where
  text : Option String
deriving DecidableEq

/-- Incoming event content: `Content(role=..., parts=[...])`. -/
structure EvtContent where
  role : Option String
  parts : List EvtPart
deriving DecidableEq

/-- An incoming ADK event as consumed by `add_session_to_memory`. -/
structure Event where
  author : String
  timestamp : Option Nat
  content : Option EvtContent
deriving DecidableEq

/-- A session as consumed by `add_session_to_memory`. -/
structure Session where
  id : String
  app_name : String
  user_id : String
  events : List Event
deriving DecidableEq

/-- A stored (serialized) turn, i.e. one element of the per-session event
lists kept in the document.  `parts` holds the `text` fields of the stored
`{"text": ...}` part dictionaries. -/
structure Turn where
  timestamp : Option String
  author : String
  role : Option String
  parts : List String
deriving DecidableEq

/-- The per-user metadata dictionary.  Reads in the source use
`.get(key, 0)`, so absent fields behave as `0`; the structure stores the
defaulted values. -/
structure Metadata where
  total_turns : Nat
  last_summarized_turn_count : Nat
deriving DecidableEq

/-- A value stored in a user record: either the metadata dictionary or a
list of turns (the summaries entry and every session entry). -/
inductive RVal where
  | meta (m : Metadata)
  | turns (ts : List Turn)
deriving DecidableEq

/-- A user record: the Python dict mapping `__metadata__`, `__summaries__`
and session ids to their values, in insertion order. -/
def UserData := List (String × RVal)
deriving DecidableEq

/-- The whole document: user key (`"app/user"`) to user record. -/
def Document := List (String × UserData)
deriving DecidableEq

/-- Service state: the in-memory document (`self._session_events`) and the
document currently held by the store. -/
structure MemState where
  doc : Document
  saved : Document
deriving DecidableEq

/-- Lookup in an insertion-ordered association list (`d.get(k)`).  Python
dict keys are unique, so first-match lookup is exact. -/
def getA {α : Type} : List (String × α) → String → Option α
  | [], _ => none
  | p :: rest, k => if p.1 = k then some p.2 else getA rest k

/-- Update in an insertion-ordered association list (`d[k] = v`): an
existing key keeps its position and gets the new value, a new key is
appended at the end — exactly the Python dict assignment on its unique-key
lists. -/
def setA {α : Type} : List (String × α) → String → α → List (String × α)
  | [], k, v => [(k, v)]
  | p :: rest, k, v =>
    if p.1 = k then (k, v) :: rest else p :: setA rest k v

def SUMMARIZATION_THRESHOLD : Nat := 25

def METADATA_KEY : String := "__metadata__"

def SUMMARIES_KEY : String := "__summaries__"

/-- The function `_user_key(app_name, user_id)`. -/
def _user_key (app_name user_id : String) : String :=
  app_name ++ "/" ++ user_id

/-- Word characters of the regex `\w` (ASCII range). -/
def isWordChar (c : Char) : Bool :=
  c.isAlpha || c.isDigit || c = '_'

/-- Splits a character list into maximal runs of word characters
(`re.findall(r"\w+", text)`); `cur` is the current run, reversed. -/
def findallWords : List Char → List Char → List String
  | [], [] => []
  | [], cur => [String.mk cur.reverse]
  | c :: rest, cur =>
    if isWordChar c then findallWords rest (c :: cur)
    else
      match cur with
      | [] => findallWords rest []
      | _ => String.mk cur.reverse :: findallWords rest []

/-- The function `_extract_words_lower(text)`: the set of lowercased word tokens of
`text`, as a deduplicated list. -/
def _extract_words_lower (text : String) : List String :=
  (((findallWords text.toList []).map
    (fun w => String.mk (w.toList.map Char.toLower)))).dedup

/-- Truthiness of an optional string (`if part.text`). -/
def truthyText : Option String → Bool
  | none => false
  | some t => t ≠ ""

/-- Serialization of the optional numeric event timestamp:
`datetime.fromtimestamp(t).isoformat() if event.timestamp else None`, with the
ISO rendering abstracted to `toString`; `0` is falsy in Python. -/
def isoTimestamp : Option Nat → Option String
  | none => none
  | some n => if n = 0 then none else some (toString n)

/-- The parts list of an event's content (`[]` when content is missing). -/
def eventParts (e : Event) : List EvtPart :=
  match e.content with
  | none => []
  | some c => c.parts

/-- One iteration of the serialization loop of `add_session_to_memory`:
events with no content or an empty parts list are skipped, kept events are
mapped to a stored turn whose parts are the truthy texts. -/
def serializeEvent (e : Event) : Option Turn :=
  match e.content with
  | none => none
  | some c =>
    if c.parts = [] then none
    else some
      { timestamp := isoTimestamp e.timestamp
        author := e.author
        role := c.role
        parts := c.parts.filterMap (fun p =>
          match p.text with
          | some t => if t = "" then none else some t
          | none => none) }

/-- The `serializable_events` list built by `add_session_to_memory`. -/
def sessionTurns (s : Session) : List Turn :=
  s.events.filterMap serializeEvent

/-- The read `user_data.get(METADATA_KEY, dict())` followed by the defaulted field reads;
a non-metadata value under the key is unreachable for well-formed inputs
(Python would raise there). -/
def getMetaD (ud : UserData) : Metadata :=
  match getA ud METADATA_KEY with
  | some (RVal.meta m) => m
  | _ => { total_turns := 0, last_summarized_turn_count := 0 }

/-- The read `user_data.get(SUMMARIES_KEY, [])`. -/
def getSummariesD (ud : UserData) : List Turn :=
  match getA ud SUMMARIES_KEY with
  | some (RVal.turns ts) => ts
  | _ => []

/-- The method `add_session_to_memory(session)`.  Returns the new state together with a
flag telling whether a background summarization task was scheduled.  The
`summarize` argument is the service's `self._summarize` configuration. -/
def add_session_to_memory (summarize : Bool) (st : MemState) (s : Session) :
    MemState × Bool :=
  let serializable_events := sessionTurns s
  if serializable_events = [] then (st, false)
  else
    let user_key := _user_key s.app_name s.user_id
    let ud0 := (getA st.doc user_key).getD []
    let ud1 := setA ud0 s.id (RVal.turns serializable_events)
    let metadata := getMetaD ud1
    let total_turns := metadata.total_turns + serializable_events.length
    let metadata' := { metadata with total_turns := total_turns }
    let ud2 := setA ud1 METADATA_KEY (RVal.meta metadata')
    let doc' := setA st.doc user_key ud2
    ({ doc := doc', saved := doc' },
      summarize &&
        SUMMARIZATION_THRESHOLD ≤
          total_turns - metadata'.last_summarized_turn_count)

/-- The text the summarizer extracts from a stored summary turn:
`summary.get("content", {}).get("parts", [{}])[0].get("text")` — only the
first part, and only when its text is truthy. -/
def firstSummaryText (t : Turn) : Option String :=
  match t.parts with
  | [] => none
  | p :: _ => if p = "" then none else some p

/-- The text the summarizer extracts from a stored session turn:
`" ".join(p.get("text", "") for p in parts if p.get("text"))`. -/
def transcriptText (t : Turn) : String :=
  String.intercalate " " (t.parts.filter (fun p => p ≠ ""))

/-- The non-reserved entries of a user record, in insertion order, with
their turn lists.  (A metadata value under a non-reserved key is
unreachable; Python would raise on it.) -/
def sessionEntries (ud : UserData) : List (String × List Turn) :=
  ud.filterMap (fun p =>
    if p.1 = METADATA_KEY ∨ p.1 = SUMMARIES_KEY then none
    else
      match p.2 with
      | RVal.turns ts => some (p.1, ts)
      | RVal.meta _ => none)

/-- The transcript string built by `_async_background_summarize`: previous
summaries first, then every non-reserved session's turns. -/
def buildTranscript (ud : UserData) : String :=
  let sumLines := (getSummariesD ud).foldl (fun acc t =>
    match firstSummaryText t with
    | some txt => acc ++ "Previous Summary: " ++ txt ++ "\n"
    | none => acc) ""
  (sessionEntries ud).foldl (fun acc p =>
    p.2.foldl (fun acc t =>
      let text := transcriptText t
      if text = "" then acc
      else acc ++ t.author ++ ": " ++ text ++ "\n") acc) sumLines

/-- The method `_async_background_summarize(app_name, user_id)`.

`enabled` models `self._summarize and self._client and self._model_id`;
`clientResult` is the outcome of the `generate_content` call (`none` = the
call raised); `saveOk` tells whether `async_save` succeeds (its exception is
caught by the same handler); `now` is the summary timestamp string. -/
def _async_background_summarize (enabled : Bool) (clientResult : Option String)
    (saveOk : Bool) (now : String) (st : MemState)
    (app_name user_id : String) : MemState :=
  if ¬enabled then st
  else
    let user_key := _user_key app_name user_id
    let user_data := (getA st.doc user_key).getD []
    let metadata := getMetaD user_data
    let last_summarized_count := metadata.last_summarized_turn_count
    let total_turns := metadata.total_turns
    if total_turns - last_summarized_count < SUMMARIZATION_THRESHOLD then st
    else if buildTranscript user_data = "" then st
    else
      match clientResult with
      | none => st
      | some summary_text =>
        let new_summary_event : Turn :=
          { timestamp := some now
            author := "memory_summarizer"
            role := some "model"
            parts := ["Memory Summary: " ++ summary_text] }
        let ud1 := setA user_data SUMMARIES_KEY (RVal.turns [new_summary_event])
        let metadata' :=
          { metadata with last_summarized_turn_count := total_turns }
        let ud2 := setA ud1 METADATA_KEY (RVal.meta metadata')
        let doc' := setA st.doc user_key ud2
        { doc := doc', saved := if saveOk then doc' else st.saved }

/-- A search result entry (`MemoryEntry` reconstructed from a stored turn);
its content is represented by the role and the part texts. -/
structure MemoryEntry where
  role : Option String
  parts : List String
  author : String
  timestamp : String
deriving DecidableEq

/-- The text a stored turn is matched against during search:
`" ".join(p.get("text", "") for p in parts)`. -/
def searchText (t : Turn) : String :=
  String.intercalate " " t.parts

/-- The `MemoryEntry` reconstruction performed inside `_search_events`. -/
def toMemoryEntry (t : Turn) : MemoryEntry :=
  { role := t.role
    parts := t.parts
    author := t.author
    timestamp := t.timestamp.getD "" }

/-- The `_search_events` helper of `search_memory`: folds over the events,
appending a reconstructed entry for each matching turn to the accumulated
response. -/
def _search_events (words_in_query : List String) (acc : List MemoryEntry)
    (events : List Turn) : List MemoryEntry :=
  events.foldl (fun acc t =>
    let words_in_event := _extract_words_lower (searchText t)
    if words_in_event = [] then acc
    else if words_in_query.any (fun w => w ∈ words_in_event) then
      acc ++ [toMemoryEntry t]
    else acc) acc

/-- The method `search_memory(app_name, user_id, query)`: summaries are scanned first,
then every non-reserved entry of the user record in insertion order. -/
def search_memory (st : MemState) (app_name user_id query : String) :
    List MemoryEntry :=
  let user_data := (getA st.doc (_user_key app_name user_id)).getD []
  let words_in_query := _extract_words_lower query
  let acc := _search_events words_in_query [] (getSummariesD user_data)
  user_data.foldl (fun acc p =>
    if p.1 = METADATA_KEY ∨ p.1 = SUMMARIES_KEY then acc
    else
      match p.2 with
      | RVal.turns ts => _search_events words_in_query acc ts
      | RVal.meta _ => acc) acc

/-! ## Derived notions used by the verification -/

/-- The empty service state (fresh store, nothing ingested). -/
def initState : MemState := { doc := [], saved := [] }

/-- The metadata of the record stored for user key `k` (defaulted reads, as
in the source). -/
def userMeta (st : MemState) (k : String) : Metadata :=
  getMetaD ((getA st.doc k).getD [])

/-- The `total_turns` of user key `k`. -/
def totalOf (st : MemState) (k : String) : Nat :=
  (userMeta st k).total_turns

/-- The `last_summarized_turn_count` of user key `k`. -/
def lastOf (st : MemState) (k : String) : Nat :=
  (userMeta st k).last_summarized_turn_count

/-- The value stored under session id `sid` in the record of user key `k`. -/
def storedSession (st : MemState) (k sid : String) : Option RVal :=
  getA ((getA st.doc k).getD []) sid

/-- The keys of a user record, in insertion order. -/
def keysOf (ud : UserData) : List String :=
  ud.map Prod.fst

/-- One operation of the service: a session ingestion, or a background
summarization run for a user (with the environment's behaviour — client
outcome, save outcome, current time — as data). -/
inductive Op where
  | add (s : Session)
  | summ (clientResult : Option String) (saveOk : Bool)
      (now app_name user_id : String)

/-- Executing one operation. -/
def stepOp (summarize : Bool) (st : MemState) : Op → MemState
  | Op.add s => (add_session_to_memory summarize st s).1
  | Op.summ r ok now a u =>
    _async_background_summarize summarize r ok now st a u

/-- Executing a sequence of operations. -/
def runOps (summarize : Bool) (st : MemState) (ops : List Op) : MemState :=
  ops.foldl (stepOp summarize) st

/-- The number of turns one operation ingests for user key `k`: an `add`
contributes the length of the turn sequence it stores, a summarization
ingests nothing. -/
def opTurns (k : String) : Op → Nat
  | Op.add s =>
    if _user_key s.app_name s.user_id = k then (sessionTurns s).length else 0
  | Op.summ _ _ _ _ _ => 0

/-- The cumulative number of turns a sequence of operations ingests for
user key `k`. -/
def ingestedTurns (k : String) (ops : List Op) : Nat :=
  (ops.map (opTurns k)).sum

/-- Sessions with a reserved id would make the Python code raise (the
metadata read would hit a list); the spec assumes caller-supplied session
ids never equal the reserved keys. -/
def validOp : Op → Prop
  | Op.add s => s.id ≠ METADATA_KEY ∧ s.id ≠ SUMMARIES_KEY
  | Op.summ _ _ _ _ _ => True

/-- An event with at least one non-empty text part — the filter the spec
describes for ingestion ("at least one non-empty text part"). -/
def specNonEmptyEvent (e : Event) : Bool :=
  (eventParts e).any (fun p => truthyText p.text)

/-- The match test applied to one stored turn during search (turns whose
text yields no tokens are skipped, otherwise token-set intersection). -/
def matchesTurn (words_in_query : List String) (t : Turn) : Bool :=
  let words_in_event := _extract_words_lower (searchText t)
  ¬words_in_event = [] && words_in_query.any (fun w => w ∈ words_in_event)

/-- The two token sets intersect. -/
def tokensIntersect (query text : String) : Prop :=
  ∃ w, w ∈ _extract_words_lower query ∧ w ∈ _extract_words_lower text

/-- The turns scanned by `search_memory`, in scan order: the summaries
entry first, then every non-reserved session in insertion order. -/
def scanOrder (ud : UserData) : List Turn :=
  getSummariesD ud ++ (sessionEntries ud).flatMap Prod.snd

/-- Declarative search, following the spec's words: all matching turns of
the scan order, each mapped to a reconstructed entry — no ranking,
deduplication or limit. -/
def searchSpec (st : MemState) (app_name user_id query : String) :
    List MemoryEntry :=
  let ud := (getA st.doc (_user_key app_name user_id)).getD []
  ((scanOrder ud).filter
    (matchesTurn (_extract_words_lower query))).map toMemoryEntry

/-- The synthetic turn a successful summarization stores. -/
def newSummaryTurn (now txt : String) : Turn :=
  ⟨some now, "memory_summarizer", some "model", ["Memory Summary: " ++ txt]⟩

/-! ## Concrete fixtures -/

/-- A session whose single event has text "My phone is 123456.". -/
def phoneSession : Session :=
  ⟨"s1", "app", "user",
    [⟨"user", none, some ⟨none, [⟨some "My phone is 123456."⟩]⟩⟩]⟩

/-- The state after ingesting `phoneSession` into a fresh service. -/
def phoneState : MemState :=
  (add_session_to_memory false initState phoneSession).1

/-- The entry search reconstructs from the phone turn. -/
def phoneEntry : MemoryEntry :=
  { role := none, parts := ["My phone is 123456."], author := "user",
    timestamp := "" }

/-- A session whose single event has a parts list whose only part carries no
text: the event survives the ingestion filter (it has a content and a
non-empty parts list) although it has no non-empty text part. -/
def textlessSession : Session :=
  ⟨"s1", "app", "user", [⟨"user", none, some ⟨none, [⟨none⟩]⟩⟩]⟩

/-- A user record past the summarization threshold: one session of one
turn, re-ingested until `total_turns` reached 25, never summarized. -/
def backlogRecord : UserData :=
  [("sess", RVal.turns [⟨none, "user", some "user", ["I love apples."]⟩]),
   (METADATA_KEY, RVal.meta ⟨25, 0⟩)]

/-- A state holding `backlogRecord` for user `app/user`, in sync with the
store. -/
def backlogState : MemState :=
  { doc := [("app/user", backlogRecord)],
    saved := [("app/user", backlogRecord)] }

/-- A stored turn with no parts at all — its search text has no tokens. -/
def blankTurn : Turn := ⟨none, "user", none, []⟩

/-- A session none of whose events carries a content with parts: one event
has no content, the other an empty parts list. -/
def noTextSession : Session :=
  ⟨"s1", "app", "user",
    [⟨"user", none, none⟩, ⟨"sys", some 5, some ⟨some "model", []⟩⟩]⟩

/-- The state after a successful summarization run over `backlogState`. -/
def summarizedState : MemState :=
  _async_background_summarize true (some "S") true "T" backlogState
    "app" "user"

/-- The user record of `summarizedState`. -/
def summarizedRecord : UserData :=
  (getA summarizedState.doc "app/user").getD []

/-- An instance making validity of an operation decidable (the reserved-key
conditions are decidable string disequalities). -/
instance decValidOp : DecidablePred validOp := fun op =>
  match op with
  | Op.add s =>
    inferInstanceAs (Decidable (s.id ≠ METADATA_KEY ∧ s.id ≠ SUMMARIES_KEY))
  | Op.summ _ _ _ _ _ => inferInstanceAs (Decidable True)

/-! ## Association-list lemmas -/

theorem getA_setA_self {α : Type} (d : List (String × α)) (k : String)
    (v : α) : getA (setA d k v) k = some v := by
  induction d with
  | nil => simp [getA, setA]
  | cons p rest ih =>
    by_cases h : p.1 = k
    · simp [setA, getA, h]
    · simp [setA, getA, h, ih]

theorem getA_setA_ne {α : Type} (d : List (String × α)) (k k' : String)
    (v : α) (h : k' ≠ k) : getA (setA d k v) k' = getA d k' := by
  have hne : ¬k = k' := fun hh => h hh.symm
  induction d with
  | nil => simp [getA, setA, hne]
  | cons p rest ih =>
    by_cases hp : p.1 = k
    · simp [setA, getA, hp, hne]
    · simp [setA, getA, hp, ih]

theorem keysOf_cons (p : String × RVal) (d : UserData) :
    keysOf (p :: d) = p.1 :: keysOf d := rfl

theorem keysOf_setA (d : UserData) (k : String) (v : RVal) :
    keysOf (setA d k v) =
      if k ∈ keysOf d then keysOf d else keysOf d ++ [k] := by
  induction d with
  | nil => simp [keysOf, setA]
  | cons p rest ih =>
    by_cases hp : p.1 = k
    · simp [setA, hp, keysOf_cons, List.mem_cons]
    · have hne : ¬k = p.1 := fun hh => hp hh.symm
      by_cases hmem : k ∈ keysOf rest
      · simp [setA, hp, keysOf_cons, List.mem_cons, hne, hmem, ih]
      · simp [setA, hp, keysOf_cons, List.mem_cons, hne, hmem, ih]

theorem keysOf_setA_nodup (d : UserData) (k : String) (v : RVal)
    (h : (keysOf d).Nodup) : (keysOf (setA d k v)).Nodup := by
  rw [keysOf_setA]
  by_cases hmem : k ∈ keysOf d
  · simpa [hmem] using h
  · simpa [hmem, List.nodup_append] using h

theorem count_keysOf_setA_self (d : UserData) (k : String) (v : RVal)
    (h : (keysOf d).Nodup) : (keysOf (setA d k v)).count k = 1 := by
  rw [keysOf_setA]
  by_cases hmem : k ∈ keysOf d
  · simp only [hmem, if_pos]
    exact List.count_eq_one_of_mem h hmem
  · have : (keysOf d).count k = 0 := List.count_eq_zero.mpr hmem
    simp [hmem, this]

theorem count_keysOf_setA_ne (d : UserData) (k k' : String) (v : RVal)
    (h : k' ≠ k) : (keysOf (setA d k v)).count k' = (keysOf d).count k' := by
  rw [keysOf_setA]
  by_cases hmem : k ∈ keysOf d
  · simp [hmem]
  · simp [hmem, List.count_append, List.count_singleton, h]

theorem metadata_ne_summaries : METADATA_KEY ≠ SUMMARIES_KEY := by decide

theorem getMetaD_setA_meta (ud : UserData) (m : Metadata) :
    getMetaD (setA ud METADATA_KEY (RVal.meta m)) = m := by
  unfold getMetaD
  rw [getA_setA_self]

theorem getMetaD_setA_ne (ud : UserData) (k : String) (v : RVal)
    (h : METADATA_KEY ≠ k) : getMetaD (setA ud k v) = getMetaD ud := by
  unfold getMetaD
  rw [getA_setA_ne _ _ _ _ h]

theorem getSummariesD_setA_turns (ud : UserData) (ts : List Turn) :
    getSummariesD (setA ud SUMMARIES_KEY (RVal.turns ts)) = ts := by
  unfold getSummariesD
  rw [getA_setA_self]

theorem getSummariesD_setA_ne (ud : UserData) (k : String) (v : RVal)
    (h : SUMMARIES_KEY ≠ k) : getSummariesD (setA ud k v) = getSummariesD ud := by
  unfold getSummariesD
  rw [getA_setA_ne _ _ _ _ h]

/-! ## Search refinement lemmas -/

theorem _search_events_eq (qws : List String) (events : List Turn) :
    ∀ acc, _search_events qws acc events
      = acc ++ (events.filter (matchesTurn qws)).map toMemoryEntry := by
  induction events with
  | nil => intro acc; simp [_search_events]
  | cons t ts ih =>
    intro acc
    have hcons : _search_events qws acc (t :: ts)
        = _search_events qws
            (if matchesTurn qws t then acc ++ [toMemoryEntry t] else acc) ts := by
      show List.foldl _ acc (t :: ts) = _
      rw [List.foldl_cons]
      congr 1
      by_cases h1 : _extract_words_lower (searchText t) = []
      · simp [matchesTurn, h1]
      · by_cases h2 :
          qws.any (fun w => w ∈ _extract_words_lower (searchText t))
        · simp [matchesTurn, h1, h2]
        · simp [matchesTurn, h1, h2]
    rw [hcons, ih]
    by_cases hm : matchesTurn qws t
    · simp [List.filter_cons, hm]
    · simp [List.filter_cons, hm]

theorem search_fold_eq (qws : List String) (ud : UserData) :
    ∀ acc, ud.foldl (fun acc p =>
        if p.1 = METADATA_KEY ∨ p.1 = SUMMARIES_KEY then acc
        else
          match p.2 with
          | RVal.turns ts => _search_events qws acc ts
          | RVal.meta _ => acc) acc
      = acc ++ (((sessionEntries ud).flatMap Prod.snd).filter
          (matchesTurn qws)).map toMemoryEntry := by
  induction ud with
  | nil => intro acc; simp [sessionEntries]
  | cons p rest ih =>
    intro acc
    rw [List.foldl_cons]
    by_cases hres : p.1 = METADATA_KEY ∨ p.1 = SUMMARIES_KEY
    · rw [if_pos hres, ih]
      simp [sessionEntries, List.filterMap_cons, hres]
    · rw [if_neg hres]
      cases hv : p.2 with
      | meta m =>
        rw [ih]
        simp [sessionEntries, List.filterMap_cons, hres, hv]
      | turns ts =>
        rw [ih]
        have hred : (match RVal.turns ts with
            | RVal.turns ts => _search_events qws acc ts
            | RVal.meta _ => acc) = _search_events qws acc ts := rfl
        rw [hred, _search_events_eq]
        simp [sessionEntries, List.filterMap_cons, hres, hv,
          List.filter_append, List.append_assoc]

theorem search_memory_eq (st : MemState) (app_name user_id query : String) :
    search_memory st app_name user_id query
      = searchSpec st app_name user_id query := by
  simp only [search_memory, searchSpec]
  rw [search_fold_eq, _search_events_eq]
  simp [scanOrder, List.filter_append]

/-! ## Ingestion lemmas -/

theorem add_session_noop (b : Bool) (st : MemState) (s : Session)
    (h : sessionTurns s = []) :
    add_session_to_memory b st s = (st, false) := by
  simp [add_session_to_memory, h]

theorem add_session_snd (b : Bool) (st : MemState) (s : Session)
    (h : sessionTurns s ≠ []) (h1 : s.id ≠ METADATA_KEY) :
    (add_session_to_memory b st s).2
      = (b && decide (SUMMARIZATION_THRESHOLD ≤
          totalOf st (_user_key s.app_name s.user_id)
              + (sessionTurns s).length
            - lastOf st (_user_key s.app_name s.user_id))) := by
  simp only [add_session_to_memory, if_neg h]
  rw [getMetaD_setA_ne _ _ _ (fun hh => h1 hh.symm)]
  rfl

theorem storedSession_add (b : Bool) (st : MemState) (s : Session)
    (h1 : s.id ≠ METADATA_KEY) (h : sessionTurns s ≠ []) :
    storedSession (add_session_to_memory b st s).1
      (_user_key s.app_name s.user_id) s.id
      = some (RVal.turns (sessionTurns s)) := by
  simp only [add_session_to_memory, if_neg h, storedSession]
  rw [getA_setA_self]
  simp only [Option.getD_some]
  rw [getA_setA_ne _ _ _ _ h1, getA_setA_self]

theorem userMeta_add (b : Bool) (st : MemState) (s : Session)
    (h1 : s.id ≠ METADATA_KEY) (k : String) :
    userMeta (add_session_to_memory b st s).1 k
      = if k = _user_key s.app_name s.user_id then
          { userMeta st k with total_turns :=
              (userMeta st k).total_turns + (sessionTurns s).length }
        else userMeta st k := by
  by_cases hemp : sessionTurns s = []
  · rw [add_session_noop b st s hemp]
    by_cases hk : k = _user_key s.app_name s.user_id
    · rw [if_pos hk, hemp]
      rfl
    · rw [if_neg hk]
  · simp only [add_session_to_memory, if_neg hemp]
    by_cases hk : k = _user_key s.app_name s.user_id
    · rw [if_pos hk]
      simp only [userMeta, hk]
      rw [getA_setA_self]
      simp only [Option.getD_some]
      rw [getMetaD_setA_meta,
        getMetaD_setA_ne _ _ _ (fun hh => h1 hh.symm)]
    · rw [if_neg hk]
      simp only [userMeta]
      rw [getA_setA_ne _ _ _ _ hk]

/-! ## Summarizer lemmas -/

theorem summ_noop_disabled (r : Option String) (ok : Bool) (now : String)
    (st : MemState) (a u : String) :
    _async_background_summarize false r ok now st a u = st := by
  simp [_async_background_summarize]

theorem summ_noop_below (b : Bool) (r : Option String) (ok : Bool)
    (now : String) (st : MemState) (a u : String)
    (h : totalOf st (_user_key a u) - lastOf st (_user_key a u)
      < SUMMARIZATION_THRESHOLD) :
    _async_background_summarize b r ok now st a u = st := by
  cases b with
  | false => simp [_async_background_summarize]
  | true => simp [_async_background_summarize, totalOf, lastOf, userMeta] at h ⊢
            simp [h]

theorem summ_noop_client_error (b : Bool) (ok : Bool) (now : String)
    (st : MemState) (a u : String) :
    _async_background_summarize b none ok now st a u = st := by
  cases b with
  | false => simp [_async_background_summarize]
  | true =>
    simp only [_async_background_summarize]
    split
    · rfl
    · split
      · rfl
      · split
        · rfl
        · rfl

theorem summ_success_doc (txt : String) (ok : Bool) (now : String)
    (st : MemState) (a u : String)
    (hcond : ¬(totalOf st (_user_key a u) - lastOf st (_user_key a u)
      < SUMMARIZATION_THRESHOLD))
    (htr : ¬buildTranscript ((getA st.doc (_user_key a u)).getD []) = "") :
    _async_background_summarize true (some txt) ok now st a u
      = { doc := setA st.doc (_user_key a u)
            (setA (setA ((getA st.doc (_user_key a u)).getD [])
                SUMMARIES_KEY (RVal.turns [newSummaryTurn now txt]))
              METADATA_KEY
              (RVal.meta { userMeta st (_user_key a u) with
                last_summarized_turn_count :=
                  totalOf st (_user_key a u) }))
          saved := if ok then setA st.doc (_user_key a u)
            (setA (setA ((getA st.doc (_user_key a u)).getD [])
                SUMMARIES_KEY (RVal.turns [newSummaryTurn now txt]))
              METADATA_KEY
              (RVal.meta { userMeta st (_user_key a u) with
                last_summarized_turn_count :=
                  totalOf st (_user_key a u) }))
            else st.saved } := by
  simp only [_async_background_summarize, totalOf, lastOf, userMeta] at hcond htr ⊢
  rw [if_neg (by simp), if_neg hcond, if_neg htr]
  rfl

theorem summ_noop_transcript (b : Bool) (r : Option String) (ok : Bool)
    (now : String) (st : MemState) (a u : String)
    (htr : buildTranscript ((getA st.doc (_user_key a u)).getD []) = "") :
    _async_background_summarize b r ok now st a u = st := by
  cases b with
  | false => simp [_async_background_summarize]
  | true =>
    simp only [_async_background_summarize]
    rw [if_neg (by simp)]
    split
    · rfl
    · simp [htr]

theorem summ_success_record (txt : String) (ok : Bool) (now : String)
    (st : MemState) (a u : String)
    (hcond : ¬(totalOf st (_user_key a u) - lastOf st (_user_key a u)
      < SUMMARIZATION_THRESHOLD))
    (htr : ¬buildTranscript ((getA st.doc (_user_key a u)).getD []) = "") :
    (getA (_async_background_summarize true (some txt) ok now st a u).doc
        (_user_key a u)).getD []
      = setA (setA ((getA st.doc (_user_key a u)).getD [])
            SUMMARIES_KEY (RVal.turns [newSummaryTurn now txt]))
          METADATA_KEY
          (RVal.meta { userMeta st (_user_key a u) with
            last_summarized_turn_count := totalOf st (_user_key a u) }) := by
  rw [summ_success_doc txt ok now st a u hcond htr]
  simp only
  rw [getA_setA_self]
  rfl

theorem summ_success_summaries (txt : String) (ok : Bool) (now : String)
    (st : MemState) (a u : String)
    (hcond : ¬(totalOf st (_user_key a u) - lastOf st (_user_key a u)
      < SUMMARIZATION_THRESHOLD))
    (htr : ¬buildTranscript ((getA st.doc (_user_key a u)).getD []) = "") :
    getSummariesD
        ((getA (_async_background_summarize true (some txt) ok now st a u).doc
          (_user_key a u)).getD [])
      = [newSummaryTurn now txt] := by
  rw [summ_success_record txt ok now st a u hcond htr]
  rw [getSummariesD_setA_ne _ _ _
    (fun hh => metadata_ne_summaries hh.symm)]
  rw [getSummariesD_setA_turns]

theorem summ_success_meta (txt : String) (ok : Bool) (now : String)
    (st : MemState) (a u : String)
    (hcond : ¬(totalOf st (_user_key a u) - lastOf st (_user_key a u)
      < SUMMARIZATION_THRESHOLD))
    (htr : ¬buildTranscript ((getA st.doc (_user_key a u)).getD []) = "") :
    userMeta (_async_background_summarize true (some txt) ok now st a u)
        (_user_key a u)
      = { userMeta st (_user_key a u) with
          last_summarized_turn_count := totalOf st (_user_key a u) } := by
  have h := summ_success_record txt ok now st a u hcond htr
  simp only [userMeta] at h ⊢
  rw [h, getMetaD_setA_meta]

theorem summ_success_saved_ok (txt : String) (now : String)
    (st : MemState) (a u : String)
    (hcond : ¬(totalOf st (_user_key a u) - lastOf st (_user_key a u)
      < SUMMARIZATION_THRESHOLD))
    (htr : ¬buildTranscript ((getA st.doc (_user_key a u)).getD []) = "") :
    (_async_background_summarize true (some txt) true now st a u).saved
      = (_async_background_summarize true (some txt) true now st a u).doc := by
  rw [summ_success_doc txt true now st a u hcond htr]
  rfl

theorem summ_success_saved_fail (txt : String) (now : String)
    (st : MemState) (a u : String)
    (hcond : ¬(totalOf st (_user_key a u) - lastOf st (_user_key a u)
      < SUMMARIZATION_THRESHOLD))
    (htr : ¬buildTranscript ((getA st.doc (_user_key a u)).getD []) = "") :
    (_async_background_summarize true (some txt) false now st a u).saved
      = st.saved := by
  rw [summ_success_doc txt false now st a u hcond htr]
  rfl

theorem summ_meta_cases (b : Bool) (r : Option String) (ok : Bool)
    (now : String) (st : MemState) (a u k : String) :
    userMeta (_async_background_summarize b r ok now st a u) k
        = userMeta st k
      ∨ userMeta (_async_background_summarize b r ok now st a u) k
        = { userMeta st k with last_summarized_turn_count :=
            (userMeta st k).total_turns } := by
  cases b with
  | false => left; rw [summ_noop_disabled]
  | true =>
    by_cases hcond : totalOf st (_user_key a u) - lastOf st (_user_key a u)
      < SUMMARIZATION_THRESHOLD
    · left; rw [summ_noop_below _ _ _ _ _ _ _ hcond]
    · by_cases htr : buildTranscript ((getA st.doc (_user_key a u)).getD [])
        = ""
      · left; rw [summ_noop_transcript _ _ _ _ _ _ _ htr]
      · cases r with
        | none => left; rw [summ_noop_client_error]
        | some txt =>
          by_cases hk : k = _user_key a u
          · right
            subst hk
            rw [summ_success_meta txt ok now st a u hcond htr]
            rfl
          · left
            have h := summ_success_doc txt ok now st a u hcond htr
            simp only [userMeta, h]
            rw [getA_setA_ne _ _ _ _ hk]

/-! ## Operation-sequence lemmas -/

theorem step_total (b : Bool) (st : MemState) (op : Op) (hv : validOp op)
    (k : String) :
    totalOf (stepOp b st op) k = totalOf st k + opTurns k op := by
  cases op with
  | add s =>
    have h1 : s.id ≠ METADATA_KEY := hv.1
    simp only [stepOp, totalOf, opTurns]
    rw [userMeta_add b st s h1 k]
    by_cases hk : k = _user_key s.app_name s.user_id
    · simp [hk]
    · have hk2 : ¬_user_key s.app_name s.user_id = k :=
        fun hh => hk hh.symm
      simp [hk, hk2]
  | summ r ok now a u =>
    simp only [stepOp, totalOf, opTurns, Nat.add_zero]
    rcases summ_meta_cases b r ok now st a u k with h | h
    · rw [h]
    · rw [h]

theorem step_last (b : Bool) (st : MemState) (op : Op) (hv : validOp op)
    (k : String) :
    lastOf (stepOp b st op) k = lastOf st k
      ∨ lastOf (stepOp b st op) k = totalOf st k := by
  cases op with
  | add s =>
    have h1 : s.id ≠ METADATA_KEY := hv.1
    left
    simp only [stepOp, lastOf]
    rw [userMeta_add b st s h1 k]
    by_cases hk : k = _user_key s.app_name s.user_id
    · simp [hk]
    · simp [hk]
  | summ r ok now a u =>
    rcases summ_meta_cases b r ok now st a u k with h | h
    · left; simp only [stepOp, lastOf]; rw [h]
    · right; simp only [stepOp, lastOf, totalOf]; rw [h]

theorem step_inv (b : Bool) (st : MemState) (op : Op) (hv : validOp op)
    (k : String) (h : lastOf st k ≤ totalOf st k) :
    lastOf (stepOp b st op) k ≤ totalOf (stepOp b st op) k := by
  rw [step_total b st op hv k]
  rcases step_last b st op hv k with h1 | h1
  · rw [h1]; exact le_trans h (Nat.le_add_right _ _)
  · rw [h1]; exact Nat.le_add_right _ _

theorem run_invariant (b : Bool) (ops : List Op) :
    ∀ st, (∀ op ∈ ops, validOp op) → ∀ k,
      totalOf (runOps b st ops) k = totalOf st k + ingestedTurns k ops
      ∧ (lastOf st k ≤ totalOf st k →
          lastOf (runOps b st ops) k ≤ totalOf (runOps b st ops) k) := by
  induction ops with
  | nil =>
    intro st _ k
    simp [runOps, ingestedTurns]
  | cons op ops ih =>
    intro st hv k
    have hv0 : validOp op := hv op (List.mem_cons_self op ops)
    have hvs : ∀ o ∈ ops, validOp o := fun o ho => hv o (List.mem_cons_of_mem _ ho)
    have hrun : runOps b st (op :: ops) = runOps b (stepOp b st op) ops := by
      simp [runOps]
    rw [hrun]
    rcases ih (stepOp b st op) hvs k with ⟨ht, hl⟩
    constructor
    · rw [ht, step_total b st op hv0 k]
      simp [ingestedTurns, Nat.add_assoc]
    · intro h
      exact hl (step_inv b st op hv0 k h)

/-- The full user record produced by a non-empty ingestion. -/
theorem record_add (b : Bool) (st : MemState) (s : Session)
    (hne : sessionTurns s ≠ []) :
    (getA (add_session_to_memory b st s).1.doc
        (_user_key s.app_name s.user_id)).getD []
      = setA (setA ((getA st.doc (_user_key s.app_name s.user_id)).getD [])
            s.id (RVal.turns (sessionTurns s)))
          METADATA_KEY
          (RVal.meta { getMetaD (setA ((getA st.doc
                (_user_key s.app_name s.user_id)).getD [])
              s.id (RVal.turns (sessionTurns s))) with
            total_turns := (getMetaD (setA ((getA st.doc
                  (_user_key s.app_name s.user_id)).getD [])
                s.id (RVal.turns (sessionTurns s)))).total_turns
              + (sessionTurns s).length }) := by
  simp only [add_session_to_memory, if_neg hne]
  rw [getA_setA_self]
  rfl

/-! ## Claims -/

/-- C1, corrected.  The ingestion filter keeps exactly the events that have
a content with a non-empty parts list (not, as claimed, the events with at
least one non-empty **text** part), and when every event of the session is
filtered out, `add_session_to_memory` returns without mutating the
in-memory document and without saving. -/
theorem claim_C1 (b : Bool) (st : MemState) (s : Session) :
    (∀ e : Event,
      serializeEvent e = none ↔ (e.content = none ∨ eventParts e = []))
    ∧ ((∀ e ∈ s.events, e.content = none ∨ eventParts e = []) →
        add_session_to_memory b st s = (st, false)) := by
  constructor
  · intro e
    cases hc : e.content with
    | none => simp [serializeEvent, eventParts, hc]
    | some c =>
      by_cases hp : c.parts = []
      · simp [serializeEvent, eventParts, hc, hp]
      · simp [serializeEvent, eventParts, hc, hp]
  · intro h
    apply add_session_noop
    rw [sessionTurns, List.filterMap_eq_nil_iff]
    intro e he
    rcases h e he with h1 | h1
    · simp [serializeEvent, h1]
    · cases hc : e.content with
      | none => simp [serializeEvent, hc]
      | some c =>
        have : c.parts = [] := by
          simpa [eventParts, hc] using h1
        simp [serializeEvent, hc, this]

/-- C1 witness: a session whose events have no content or empty parts is a
no-op for ingestion. -/
theorem claim_C1_witness :
    (∀ e ∈ noTextSession.events, e.content = none ∨ eventParts e = [])
    ∧ add_session_to_memory false initState noTextSession
      = (initState, false) :=
  ⟨by decide, (claim_C1 false initState noTextSession).2 (by decide)⟩

/-- C1 counterexample: an event whose parts all lack text survives the
filter, so a turn with no text parts is persisted (and the store is
written), contradicting the claim as stated. -/
theorem claim_C1_counterexample :
    storedSession (add_session_to_memory false initState textlessSession).1
        "app/user" "s1"
      = some (RVal.turns [⟨none, "user", none, []⟩])
    ∧ (add_session_to_memory false initState textlessSession).1.saved
      ≠ initState.saved := by
  decide

/-- C2, corrected.  Starting from a fresh service, `total_turns` always
equals the cumulative number of turns that passed the ingestion filter (a
content with a non-empty parts list) for that user — not the number of
turns with a non-empty text part, as claimed —, it never decreases under
any operation, and `last_summarized_turn_count ≤ total_turns` holds after
every operation sequence. -/
theorem claim_C2 (b : Bool) :
    (∀ ops : List Op, (∀ op ∈ ops, validOp op) → ∀ k : String,
      totalOf (runOps b initState ops) k = ingestedTurns k ops
      ∧ lastOf (runOps b initState ops) k
        ≤ totalOf (runOps b initState ops) k)
    ∧ (∀ (st : MemState) (op : Op) (k : String), validOp op →
        totalOf st k ≤ totalOf (stepOp b st op) k) := by
  constructor
  · intro ops hv k
    rcases run_invariant b ops initState hv k with ⟨ht, hl⟩
    have h0 : totalOf initState k = 0 := rfl
    constructor
    · rw [ht, h0, Nat.zero_add]
    · exact hl le_rfl
  · intro st op k hv
    rw [step_total b st op hv k]
    exact Nat.le_add_right _ _

/-- C2 witness: one concrete ingestion satisfies the accounting equation. -/
theorem claim_C2_witness :
    (∀ op ∈ [Op.add phoneSession], validOp op)
    ∧ (totalOf (runOps true initState [Op.add phoneSession]) "app/user"
        = ingestedTurns "app/user" [Op.add phoneSession]
      ∧ lastOf (runOps true initState [Op.add phoneSession]) "app/user"
        ≤ totalOf (runOps true initState [Op.add phoneSession]) "app/user") :=
  ⟨by decide, (claim_C2 true).1 [Op.add phoneSession] (by decide) "app/user"⟩

/-- C2 counterexample: a stored turn with no text parts still increments
`total_turns`, so `total_turns` can exceed the number of ingested turns
with a non-empty text part. -/
theorem claim_C2_counterexample :
    totalOf (add_session_to_memory false initState textlessSession).1
        "app/user" = 1
    ∧ (textlessSession.events.filter (fun e => specNonEmptyEvent e)).length
      = 0 := by
  decide

/-- C3, confirmed.  A stored turn matches a query exactly when the lowercase
word-token set of the query intersects that of the turn's concatenated
text; matching is case-insensitive, and on the "My phone is 123456."
example searching "123456" (or "PHONE") returns exactly that one entry
while "bird" returns none. -/
theorem claim_C3 :
    (∀ (query : String) (t : Turn),
      matchesTurn (_extract_words_lower query) t = true
        ↔ tokensIntersect query (searchText t))
    ∧ search_memory phoneState "app" "user" "123456" = [phoneEntry]
    ∧ search_memory phoneState "app" "user" "PHONE" = [phoneEntry]
    ∧ search_memory phoneState "app" "user" "bird" = [] := by
  refine ⟨?_, by decide, by decide, by decide⟩
  intro q t
  simp only [matchesTurn, tokensIntersect, Bool.and_eq_true,
    List.any_eq_true, decide_eq_true_eq]
  constructor
  · rintro ⟨-, w, hq, he⟩
    exact ⟨w, hq, he⟩
  · rintro ⟨w, hq, he⟩
    refine ⟨?_, w, hq, he⟩
    intro hnil
    rw [hnil] at he
    exact absurd he (List.not_mem_nil w)

/-- C4, confirmed.  `search_memory` equals the declarative scan: all
matching turns — summaries first, then every non-reserved session in
insertion order — mapped to reconstructed entries, with no ranking,
deduplication or limit; a turn with an empty token set never matches. -/
theorem claim_C4 :
    (∀ (st : MemState) (app_name user_id query : String),
      search_memory st app_name user_id query
        = searchSpec st app_name user_id query)
    ∧ (∀ (qws : List String) (t : Turn),
        _extract_words_lower (searchText t) = [] →
          matchesTurn qws t = false) := by
  constructor
  · exact search_memory_eq
  · intro qws t h
    simp [matchesTurn, h]

/-- C4 witness: a turn with no stored parts yields no tokens and never
matches. -/
theorem claim_C4_witness :
    _extract_words_lower (searchText blankTurn) = []
    ∧ matchesTurn ["x"] blankTurn = false :=
  ⟨by decide, claim_C4.2 ["x"] blankTurn (by decide)⟩

/-- C5, confirmed.  Ingestion schedules the background summarizer only when
summarization is enabled and `total_turns - last_summarized_turn_count ≥ 25`
holds on the state after ingestion, and the summarizer re-checks the same
condition on entry, aborting with no side effects when it fails. -/
theorem claim_C5 (b : Bool) (st : MemState) (s : Session)
    (r : Option String) (ok : Bool) (now a u : String)
    (h1 : s.id ≠ METADATA_KEY) :
    ((add_session_to_memory b st s).2 = true →
      b = true ∧ SUMMARIZATION_THRESHOLD ≤
        totalOf (add_session_to_memory b st s).1
            (_user_key s.app_name s.user_id)
          - lastOf (add_session_to_memory b st s).1
            (_user_key s.app_name s.user_id))
    ∧ (totalOf st (_user_key a u) - lastOf st (_user_key a u)
          < SUMMARIZATION_THRESHOLD →
        _async_background_summarize b r ok now st a u = st) := by
  constructor
  · intro hsched
    by_cases hemp : sessionTurns s = []
    · rw [add_session_noop b st s hemp] at hsched
      exact absurd hsched (by simp)
    · rw [add_session_snd b st s hemp h1] at hsched
      rw [Bool.and_eq_true] at hsched
      rcases hsched with ⟨hb, hcond⟩
      refine ⟨hb, ?_⟩
      have hc := of_decide_eq_true hcond
      have ht : totalOf (add_session_to_memory b st s).1
            (_user_key s.app_name s.user_id)
          = totalOf st (_user_key s.app_name s.user_id)
            + (sessionTurns s).length := by
        simp only [totalOf]
        rw [userMeta_add b st s h1]
        simp
      have hlast : lastOf (add_session_to_memory b st s).1
            (_user_key s.app_name s.user_id)
          = lastOf st (_user_key s.app_name s.user_id) := by
        simp only [lastOf]
        rw [userMeta_add b st s h1]
        simp
      rw [ht, hlast]
      exact hc
  · intro hlt
    exact summ_noop_below b r ok now st a u hlt

/-- C5 witness: below the threshold the summarizer is a no-op. -/
theorem claim_C5_witness :
    phoneSession.id ≠ METADATA_KEY
    ∧ totalOf initState "a/u" - lastOf initState "a/u"
      < SUMMARIZATION_THRESHOLD
    ∧ _async_background_summarize true (some "S") true "T" initState "a" "u"
      = initState :=
  ⟨by decide, by decide,
    (claim_C5 true initState phoneSession (some "S") true "T" "a" "u"
      (by decide)).2 (by decide)⟩

/-- C6, confirmed.  A successful summarization run (threshold met,
non-empty transcript, client success, save success) leaves exactly one
synthetic summary turn authored "memory_summarizer" with text
"Memory Summary: " followed by the client text, sets
`last_summarized_turn_count` to the `total_turns` observed at the start of
the run, and persists the full document. -/
theorem claim_C6 (txt now : String) (st : MemState) (a u : String)
    (hcond : SUMMARIZATION_THRESHOLD ≤
      totalOf st (_user_key a u) - lastOf st (_user_key a u))
    (htr : buildTranscript ((getA st.doc (_user_key a u)).getD []) ≠ "") :
    getSummariesD ((getA
          (_async_background_summarize true (some txt) true now st a u).doc
          (_user_key a u)).getD [])
      = [newSummaryTurn now txt]
    ∧ (newSummaryTurn now txt).author = "memory_summarizer"
    ∧ (newSummaryTurn now txt).parts = ["Memory Summary: " ++ txt]
    ∧ lastOf (_async_background_summarize true (some txt) true now st a u)
        (_user_key a u)
      = totalOf st (_user_key a u)
    ∧ (_async_background_summarize true (some txt) true now st a u).saved
      = (_async_background_summarize true (some txt) true now st a u).doc := by
  have hc : ¬(totalOf st (_user_key a u) - lastOf st (_user_key a u)
      < SUMMARIZATION_THRESHOLD) := not_lt.mpr hcond
  refine ⟨summ_success_summaries txt true now st a u hc htr, rfl, rfl, ?_,
    summ_success_saved_ok txt now st a u hc htr⟩
  simp only [lastOf]
  rw [summ_success_meta txt true now st a u hc htr]

/-- C6 witness: the successful run over the backlog fixture. -/
theorem claim_C6_witness :
    SUMMARIZATION_THRESHOLD ≤
        totalOf backlogState "app/user" - lastOf backlogState "app/user"
    ∧ buildTranscript ((getA backlogState.doc "app/user").getD []) ≠ ""
    ∧ getSummariesD ((getA summarizedState.doc "app/user").getD [])
      = [newSummaryTurn "T" "S"] :=
  ⟨by decide, by decide,
    (claim_C6 "S" "T" backlogState "app" "user" (by decide) (by decide)).1⟩

/-- C7, corrected.  A summarization-client failure is caught and leaves the
state entirely unchanged (so a later ingestion past the threshold
retriggers summarization), but a **persistence** failure, although caught,
does not leave the state unchanged: the persisted document stays as it
was while the in-memory summaries and `last_summarized_turn_count` have
already been updated. -/
theorem claim_C7 (b : Bool) (ok : Bool) (now txt : String) (st : MemState)
    (a u : String)
    (hcond : SUMMARIZATION_THRESHOLD ≤
      totalOf st (_user_key a u) - lastOf st (_user_key a u))
    (htr : buildTranscript ((getA st.doc (_user_key a u)).getD []) ≠ "") :
    _async_background_summarize b none ok now st a u = st
    ∧ (_async_background_summarize true (some txt) false now st a u).saved
      = st.saved
    ∧ lastOf (_async_background_summarize true (some txt) false now st a u)
        (_user_key a u)
      = totalOf st (_user_key a u)
    ∧ getSummariesD ((getA
          (_async_background_summarize true (some txt) false now st a u).doc
          (_user_key a u)).getD [])
      = [newSummaryTurn now txt] := by
  have hc : ¬(totalOf st (_user_key a u) - lastOf st (_user_key a u)
      < SUMMARIZATION_THRESHOLD) := not_lt.mpr hcond
  refine ⟨summ_noop_client_error b ok now st a u,
    summ_success_saved_fail txt now st a u hc htr, ?_,
    summ_success_summaries txt false now st a u hc htr⟩
  simp only [lastOf]
  rw [summ_success_meta txt false now st a u hc htr]

/-- C7 witness: a client error over the backlog fixture is a strict no-op. -/
theorem claim_C7_witness :
    SUMMARIZATION_THRESHOLD ≤
        totalOf backlogState "app/user" - lastOf backlogState "app/user"
    ∧ buildTranscript ((getA backlogState.doc "app/user").getD []) ≠ ""
    ∧ _async_background_summarize true none true "T" backlogState "app" "user"
      = backlogState :=
  ⟨by decide, by decide,
    (claim_C7 true true "T" "S" backlogState "app" "user" (by decide)
      (by decide)).1⟩

/-- C7 counterexample: when the save fails, the summarization run does not
leave the user state unchanged — `last_summarized_turn_count` moves from 0
to 25 in memory while only the persisted document is untouched. -/
theorem claim_C7_counterexample :
    _async_background_summarize true (some "S") false "T" backlogState
        "app" "user" ≠ backlogState
    ∧ (_async_background_summarize true (some "S") false "T" backlogState
        "app" "user").saved = backlogState.saved
    ∧ lastOf (_async_background_summarize true (some "S") false "T"
        backlogState "app" "user") "app/user" = 25
    ∧ lastOf backlogState "app/user" = 0 := by
  decide

/-- C8, confirmed.  Re-ingesting the same session overwrites the stored
turn sequence under its session id — after two identical calls the stored
turns equal those after one call, and the user record holds exactly one
entry for that session key. -/
theorem claim_C8 (b : Bool) (st : MemState) (s : Session)
    (h1 : s.id ≠ METADATA_KEY) (h2 : s.id ≠ SUMMARIES_KEY) :
    storedSession
        (add_session_to_memory b (add_session_to_memory b st s).1 s).1
        (_user_key s.app_name s.user_id) s.id
      = storedSession (add_session_to_memory b st s).1
        (_user_key s.app_name s.user_id) s.id
    ∧ (List.Nodup
          (keysOf ((getA st.doc (_user_key s.app_name s.user_id)).getD [])) →
        sessionTurns s ≠ [] →
        List.count s.id (keysOf ((getA
            (add_session_to_memory b (add_session_to_memory b st s).1 s).1.doc
            (_user_key s.app_name s.user_id)).getD [])) = 1) := by
  have hsk : s.id ≠ SUMMARIES_KEY := h2
  constructor
  · by_cases hemp : sessionTurns s = []
    · simp [add_session_noop b st s hemp]
    · rw [storedSession_add b (add_session_to_memory b st s).1 s h1 hemp,
        storedSession_add b st s h1 hemp]
  · intro hnodup hemp
    rw [record_add b (add_session_to_memory b st s).1 s hemp]
    rw [count_keysOf_setA_ne _ _ _ _ h1]
    apply count_keysOf_setA_self
    rw [record_add b st s hemp]
    apply keysOf_setA_nodup
    exact keysOf_setA_nodup _ _ _ hnodup

/-- C8 witness: concrete double ingestion of the phone session. -/
theorem claim_C8_witness :
    (phoneSession.id ≠ METADATA_KEY ∧ phoneSession.id ≠ SUMMARIES_KEY)
    ∧ storedSession
        (add_session_to_memory false
          (add_session_to_memory false initState phoneSession).1
          phoneSession).1
        "app/user" "s1"
      = storedSession (add_session_to_memory false initState phoneSession).1
        "app/user" "s1" :=
  ⟨by decide,
    (claim_C8 false initState phoneSession (by decide) (by decide)).1⟩

/-- C9, corrected.  The reserved entries of a user record are stored under
the literal field names "__metadata__" and "__summaries__" (not "metadata"
and "summaries" as claimed); under the assumption that caller-supplied
session ids differ from the reserved names, an ingestion keeps the
metadata entry under its reserved key and the session turns under the
session id, so the reserved keys never collide with a session entry. -/
theorem claim_C9 (b : Bool) (st : MemState) (s : Session)
    (h1 : s.id ≠ METADATA_KEY) (h2 : s.id ≠ SUMMARIES_KEY)
    (hne : sessionTurns s ≠ []) :
    METADATA_KEY = "__metadata__"
    ∧ SUMMARIES_KEY = "__summaries__"
    ∧ (∃ m : Metadata,
        getA ((getA (add_session_to_memory b st s).1.doc
            (_user_key s.app_name s.user_id)).getD []) METADATA_KEY
          = some (RVal.meta m))
    ∧ storedSession (add_session_to_memory b st s).1
        (_user_key s.app_name s.user_id) s.id
      = some (RVal.turns (sessionTurns s)) := by
  have hsk : s.id ≠ SUMMARIES_KEY := h2
  refine ⟨rfl, rfl, ?_, storedSession_add b st s h1 hne⟩
  rw [record_add b st s hne]
  exact ⟨_, by rw [getA_setA_self]⟩

/-- C9 witness: the phone ingestion stores its metadata under the reserved
key and its turns under the session id. -/
theorem claim_C9_witness :
    (phoneSession.id ≠ METADATA_KEY ∧ phoneSession.id ≠ SUMMARIES_KEY
      ∧ sessionTurns phoneSession ≠ [])
    ∧ storedSession (add_session_to_memory false initState phoneSession).1
        "app/user" "s1"
      = some (RVal.turns (sessionTurns phoneSession)) :=
  ⟨by decide,
    (claim_C9 false initState phoneSession (by decide) (by decide)
      (by decide)).2.2.2⟩

/-- C9 counterexample: after ingestion and summarization the user record's
keys are the session id and the dunder names; nothing is stored under
"metadata" or "summaries". -/
theorem claim_C9_counterexample :
    keysOf summarizedRecord = ["sess", "__metadata__", "__summaries__"]
    ∧ getA summarizedRecord "metadata" = none
    ∧ getA summarizedRecord "summaries" = none
    ∧ getA summarizedRecord "__metadata__" = some (RVal.meta ⟨25, 25⟩)
    ∧ getA summarizedRecord "__summaries__"
      = some (RVal.turns [newSummaryTurn "T" "S"]) := by
  decide

/-- C10, confirmed.  A query with no word characters tokenizes to the empty
set and `search_memory` returns the empty result on every state. -/
theorem claim_C10 (st : MemState) (app_name user_id query : String)
    (h : _extract_words_lower query = []) :
    search_memory st app_name user_id query = [] := by
  rw [search_memory_eq]
  unfold searchSpec
  rw [h]
  have hall : (scanOrder ((getA st.doc
      (_user_key app_name user_id)).getD [])).filter
        (matchesTurn ([] : List String)) = [] := by
    rw [List.filter_eq_nil_iff]
    intro t _
    simp [matchesTurn]
  simp [hall]

/-- C10 witness: a punctuation-only query over a state with a stored
matching-looking turn returns nothing. -/
theorem claim_C10_witness :
    _extract_words_lower "?! ." = []
    ∧ search_memory backlogState "app" "user" "?! ." = [] :=
  ⟨by decide, claim_C10 backlogState "app" "user" "?! ." (by decide)⟩

/-- C3 witness: the case-insensitive intersection holds on the phone turn. -/
theorem claim_C3_witness :
    tokensIntersect "PHONE"
      (searchText ⟨none, "user", none, ["My phone is 123456."]⟩) :=
  (claim_C3.1 "PHONE" ⟨none, "user", none, ["My phone is 123456."]⟩).mp
    (by decide)

end GoogleAdk
